import Mathlib

/-!
Verification development for the `pytest-nhsd-apim` repository.

The development shallowly embeds the token-cache module
(`src/pytest_nhsd_apim/token_cache.py`) and the pure parts of the
authentication-journey module (`src/pytest_nhsd_apim/auth_journey.py`)
into Lean.

Modelling conventions:
* Python values that can appear as function arguments or inside token
  payloads are modelled by the inductive type `PyVal` (numbers, strings,
  tuples, dicts, lists, and the private `_KWD_MARK` sentinel object).
  Python numbers (int and float) are modelled together as rationals;
  `int(x)` is truncation toward zero (`pyInt`).
* Python dicts are modelled as association lists with the insertion-order
  and overwrite-in-place semantics of CPython dicts (`alGet`, `alSet`,
  `alErase`).  A dict originating from Python never has duplicate keys.
* The wall clock `time.time()` is an arbitrary rational number of seconds
  passed explicitly to each operation.
* Exceptions are modelled with `Except`; `PyErr` distinguishes the
  `TypeError` raised by hashing an unhashable value, `KeyError`, and
  exceptions raised by user-supplied fetch functions.
-/

set_option maxRecDepth 4000

/-- Strict lexicographic order on lists of characters, by Unicode code
point, mirroring Python's `<` on `str`.  (Defined by structural recursion
so that concrete instances evaluate inside the kernel; the built-in
`String.lt` is defined by well-founded recursion over iterators and does
not.) -/
def charsLt : List Char → List Char → Bool
  | [], [] => false
  | [], _ :: _ => true
  | _ :: _, [] => false
  | a :: as, b :: bs => if a < b then true else if a = b then charsLt as bs else false

/-- `a <= b` on Python strings, as used by `sorted` on dict items. -/
def strLe (a b : String) : Bool := !(charsLt b.data a.data)

/-- Python values, as far as the token cache needs to distinguish them.
`kwdMark` is the private `_KWD_MARK = object()` sentinel from
`token_cache.py`; no value a caller passes is that object. -/
inductive PyVal : Type where
  | num (q : ℚ)
  | str (s : String)
  | tuple (xs : List PyVal)
  | pdict (kvs : List (String × PyVal))
  | plist (xs : List PyVal)
  | kwdMark

mutual
/-- Boolean equality on `PyVal` (Python `==` restricted to the embedded
values; on these constructors Python equality is structural). -/
def eqV : PyVal → PyVal → Bool
  | .num q, .num r => decide (q = r)
  | .str s, .str t => decide (s = t)
  | .tuple xs, .tuple ys => eqL xs ys
  | .pdict kvs, .pdict kws => eqP kvs kws
  | .plist xs, .plist ys => eqL xs ys
  | .kwdMark, .kwdMark => true
  | _, _ => false
def eqL : List PyVal → List PyVal → Bool
  | [], [] => true
  | x :: xs, y :: ys => eqV x y && eqL xs ys
  | _, _ => false
def eqP : List (String × PyVal) → List (String × PyVal) → Bool
  | [], [] => true
  | (k, v) :: t, (k₂, v₂) :: t₂ => decide (k = k₂) && eqV v v₂ && eqP t t₂
  | _, _ => false
end

mutual
/-- Whether a value is hashable in Python: numbers, strings and the
sentinel object are; a tuple is hashable iff all its elements are; dicts
and lists are not. -/
def isHashable : PyVal → Bool
  | .num _ => true
  | .str _ => true
  | .kwdMark => true
  | .tuple xs => isHashableL xs
  | .pdict _ => false
  | .plist _ => false
def isHashableL : List PyVal → Bool
  | [] => true
  | x :: xs => isHashable x && isHashableL xs
end

mutual
/-- Whether a value contains (possibly nested inside tuples or dict
values) a Python `list` — the exemplar of an unhashable value that
`_recursive_make_hashable` leaves untouched. -/
def containsPlist : PyVal → Bool
  | .plist _ => true
  | .tuple xs => containsPlistL xs
  | .pdict kvs => containsPlistP kvs
  | _ => false
def containsPlistL : List PyVal → Bool
  | [] => false
  | x :: xs => containsPlist x || containsPlistL xs
def containsPlistP : List (String × PyVal) → Bool
  | [] => false
  | (_, v) :: t => containsPlist v || containsPlistP t
end

/-- Python `int()` applied to a (real-valued) number: truncation toward
zero. -/
def pyInt (q : ℚ) : Int := if 0 ≤ q then ⌊q⌋ else ⌈q⌉

/-- Lookup in a Python dict modelled as an association list. -/
def alGet {β : Type} (l : List (String × β)) (k : String) : Option β :=
  match l with
  | [] => none
  | (k₂, v) :: t => if k₂ = k then some v else alGet t k

/-- Python dict assignment `d[k] = v`: replace the value in place if the
key is present, otherwise append at the end (CPython insertion order). -/
def alSet {β : Type} (l : List (String × β)) (k : String) (v : β) : List (String × β) :=
  match l with
  | [] => [(k, v)]
  | (k₂, v₂) :: t => if k₂ = k then (k₂, v) :: t else (k₂, v₂) :: alSet t k v

/-- The value the last assignment to `k` left in the dict built by
inserting the pairs of `l` in order, if any. -/
def lastVal {β : Type} (l : List (String × β)) (k : String) : Option β :=
  match l with
  | [] => none
  | (k₂, v) :: t =>
    match lastVal t k with
    | some w => some w
    | none => if k₂ = k then some v else none

/-- A token payload / keyword-argument dict: a Python dict with string
keys. -/
abbrev StrDict : Type := List (String × PyVal)

/-- Exceptions the embedded code can raise. -/
inductive PyErr : Type where
  | typeErr
  | keyErr (k : String)
  | userErr (n : Nat)
deriving DecidableEq

/-- Lookup in the `_TokenCache._cache` dict, which is keyed by arbitrary
hashable `PyVal`s. -/
def cacheFind (c : List (PyVal × StrDict)) (k : PyVal) : Option StrDict :=
  match c with
  | [] => none
  | (k₂, v) :: t => if eqV k₂ k then some v else cacheFind t k

/-- Assignment into the `_TokenCache._cache` dict. -/
def cacheSet (c : List (PyVal × StrDict)) (k : PyVal) (v : StrDict) : List (PyVal × StrDict) :=
  match c with
  | [] => [(k, v)]
  | (k₂, v₂) :: t => if eqV k₂ k then (k₂, v) :: t else (k₂, v₂) :: cacheSet t k v

/-- `dict.pop(k)` on the `_TokenCache._cache` dict. -/
def cacheErase (c : List (PyVal × StrDict)) (k : PyVal) : List (PyVal × StrDict) :=
  match c with
  | [] => []
  | (k₂, v₂) :: t => if eqV k₂ k then t else (k₂, v₂) :: cacheErase t k

/-- The ordering key `sorted` uses on the items of a dict whose keys are
distinct strings: comparison of the key components.  (Python's `sorted`
compares the `(key, value)` tuples lexicographically, but with distinct
keys the comparison never reaches the values.) -/
def keyLe (p q : String × PyVal) : Prop := strLe p.1 q.1 = true

instance : DecidableRel keyLe := fun p q => instDecidableEqBool (strLe p.1 q.1) true

/-- `sorted(d.items())` for a dict with distinct string keys. -/
def sortPairs (l : List (String × PyVal)) : List (String × PyVal) :=
  List.insertionSort keyLe l

/-- A Python items-tuple `(k, v)` as a `PyVal`, for each pair. -/
def pairsToTuples (l : List (String × PyVal)) : List PyVal :=
  l.map (fun p => PyVal.tuple [PyVal.str p.1, p.2])

mutual
/-- `token_cache._recursive_make_hashable`: a dict becomes the tuple of
its items sorted by key, with values converted recursively (the dict
comprehension `{k: _recursive_make_hashable(v) for k, v in d.items()}`
maps over items of a dict, whose keys are distinct); a tuple is converted
elementwise; everything else (numbers, strings, lists, the sentinel) is
returned unchanged. -/
def recursive_make_hashable : PyVal → PyVal
  | .pdict kvs => .tuple (pairsToTuples (sortPairs (recursive_make_hashable_pairs kvs)))
  | .tuple xs => .tuple (recursive_make_hashable_list xs)
  | .num q => .num q
  | .str s => .str s
  | .plist xs => .plist xs
  | .kwdMark => .kwdMark
def recursive_make_hashable_list : List PyVal → List PyVal
  | [] => []
  | x :: xs => recursive_make_hashable x :: recursive_make_hashable_list xs
def recursive_make_hashable_pairs : List (String × PyVal) → List (String × PyVal)
  | [] => []
  | (k, v) :: t => (k, recursive_make_hashable v) :: recursive_make_hashable_pairs t
end

/-- The elements contributed to the cache key by the keyword arguments:
`_recursive_make_hashable(kwargs)` is a tuple of item-tuples sorted by
key. -/
def kwargsCanon (kwargs : StrDict) : List PyVal :=
  pairsToTuples (sortPairs (recursive_make_hashable_pairs kwargs))

/-- The cache key built by `cache_tokens.wrapper`:
`_recursive_make_hashable(args) + (_KWD_MARK,) + _recursive_make_hashable(kwargs)`
(tuple concatenation). -/
def cacheKey (args : List PyVal) (kwargs : StrDict) : PyVal :=
  .tuple (recursive_make_hashable_list args ++ [PyVal.kwdMark] ++ kwargsCanon kwargs)

/-- The `_TokenCache._cache` dict. -/
abbrev Cache : Type := List (PyVal × StrDict)

/-- `_TokenCache.insert` at wall-clock time `now` (seconds):
if the payload has no `issued_at` field, set
`token_data["issued_at"] = time() - 5000` (the code's comment reads
"Assume 5 seconds ago"), then store the (mutated) payload under `key`.
Returns the stored payload (the caller holds the same mutated dict) and
the new cache contents. -/
def tokenCache_insert (now : ℚ) (key : PyVal) (token_data : StrDict) (c : Cache) :
    StrDict × Cache :=
  let td :=
    match alGet token_data "issued_at" with
    | some _ => token_data
    | none => alSet token_data "issued_at" (.num (now - 5000))
  (td, cacheSet c key td)

/-- `_TokenCache.get` at wall-clock time `now` (seconds).  `key not in
self._cache` hashes the key, raising `TypeError` on an unhashable key.
On a present key it computes `now_ish = int(time()) + 5` and
`expiry_time = int(td["issued_at"]) + 1000 * int(td["expires_in"])`
(`KeyError` on a missing field, `TypeError` if a field is not a number —
the embedded payloads carry numeric fields), evicts and misses when
`now_ish > expiry_time`, and otherwise returns the entry. -/
def tokenCache_get (now : ℚ) (key : PyVal) (c : Cache) :
    Except PyErr (Option StrDict × Cache) :=
  if isHashable key then
    match cacheFind c key with
    | none => .ok (none, c)
    | some td =>
      match alGet td "issued_at" with
      | none => .error (.keyErr "issued_at")
      | some vi =>
        match vi with
        | .num issued =>
          match alGet td "expires_in" with
          | none => .error (.keyErr "expires_in")
          | some ve =>
            match ve with
            | .num expires =>
              let grace_period_seconds : Int := 5
              let now_ish : Int := pyInt now + grace_period_seconds
              let expiry_time : Int := pyInt issued + 1000 * pyInt expires
              if expiry_time < now_ish then .ok (none, cacheErase c key)
              else .ok (some td, c)
            | _ => .error .typeErr
        | _ => .error .typeErr
  else .error .typeErr

/-- The global `_CACHES` dict, one `_TokenCache` per function `__name__`. -/
abbrev Caches : Type := List (String × Cache)

/-- The `if func_name not in _CACHES: _CACHES[func_name] = _TokenCache()`
prologue of the wrapper. -/
def ensureCache (cs : Caches) (func_name : String) : Caches :=
  match alGet cs func_name with
  | some _ => cs
  | none => alSet cs func_name ([] : Cache)

/-- Result of one call to a `cache_tokens`-wrapped function: the returned
payload or propagated exception, the final state of `_CACHES`, and how
many times the underlying fetch function ran (0 or 1). -/
structure CallResult : Type where
  ret : Except PyErr StrDict
  caches : Caches
  fetches : Nat

/-- One call to the wrapper produced by `cache_tokens(f)`.  The wrapped
`f` is a (deterministic) function of the positional and keyword
arguments that may raise; `@functools.wraps` makes `func_name` the name
of `f`.  The wrapper ensures a per-name `_TokenCache` exists, builds the
cache key, returns a cached payload when `cache.get` yields a truthy
(non-empty) dict, and otherwise calls `f` and inserts the result.
Mutation of the per-name `_TokenCache` (eviction inside `get`, insertion)
is modelled by writing the updated cache back into `_CACHES`. -/
def cache_tokens_wrapper (func_name : String)
    (f : List PyVal → StrDict → Except PyErr StrDict)
    (args : List PyVal) (kwargs : StrDict) (now : ℚ) (cs : Caches) : CallResult :=
  let cs₁ := ensureCache cs func_name
  let cache := (alGet cs₁ func_name).getD []
  let cache_key := cacheKey args kwargs
  match tokenCache_get now cache_key cache with
  | .error e => ⟨.error e, cs₁, 0⟩
  | .ok (token_opt, cache₁) =>
    match token_opt with
    | some (kv :: token_rest) => ⟨.ok (kv :: token_rest), alSet cs₁ func_name cache₁, 0⟩
    | some [] =>
      match f args kwargs with
      | .error e => ⟨.error e, alSet cs₁ func_name cache₁, 1⟩
      | .ok td =>
        let ins := tokenCache_insert now cache_key td cache₁
        ⟨.ok ins.1, alSet cs₁ func_name ins.2, 1⟩
    | none =>
      match f args kwargs with
      | .error e => ⟨.error e, alSet cs₁ func_name cache₁, 1⟩
      | .ok td =>
        let ins := tokenCache_insert now cache_key td cache₁
        ⟨.ok ins.1, alSet cs₁ func_name ins.2, 1⟩

/-- The JWT client assertion `get_access_token_via_signed_jwt_flow`
builds: the header (`alg` fixed by `algorithm="RS512"`, `kid` from
`additional_headers`), the claims dict, and the signing key passed to
`jwt.encode`.  Signing is modelled abstractly: the record of header,
claims and key stands for the encoded token, whose decoded claims are
exactly these fields. -/
structure ClientAssertion : Type where
  header_alg : String
  header_kid : String
  sub : String
  iss : String
  jti : String
  aud : String
  exp : Int
  signing_key : String

/-- The assertion-building prefix of
`auth_journey.get_access_token_via_signed_jwt_flow` at wall-clock time
`now`.  `str(uuid.uuid4())` is a fresh random string; it is modelled as
the explicit argument `jti_value` supplied by the environment, a distinct
value on each call. -/
def get_access_token_via_signed_jwt_flow_assertion
    (identity_service_base_url client_id jwt_private_key jwt_kid : String)
    (now : ℚ) (jti_value : String) : ClientAssertion :=
  let url := identity_service_base_url ++ "/token"
  { header_alg := "RS512"
    header_kid := jwt_kid
    sub := client_id
    iss := client_id
    jti := jti_value
    aud := url
    exp := pyInt now + 300
    signing_key := jwt_private_key }

/-- `auth_journey.get_authorize_form_submission_data`: each parsed
`<input>` contributes its `name`/`value` attributes, in document order,
to `form_submission_data`; then `form_submission_data.update(login_options)`
overlays the caller-supplied dict.  Inputs are modelled as the list of
their `(name, value)` attribute pairs. -/
def get_authorize_form_submission_data
    (inputs : List (String × String)) (login_options : List (String × String)) :
    List (String × String) :=
  let form_submission_data :=
    inputs.foldl (fun d p => alSet d p.1 p.2) ([] : List (String × String))
  login_options.foldl (fun d p => alSet d p.1 p.2) form_submission_data

/-- Split a character list at every occurrence of `sep` (`str.split`). -/
def splitChars (sep : Char) : List Char → List (List Char)
  | [] => [[]]
  | c :: rest =>
    let r := splitChars sep rest
    if c = sep then [] :: r
    else
      match r with
      | h :: t => (c :: h) :: t
      | [] => [[c]]

/-- Split one `k=v` fragment at its first `=`, if any. -/
def splitFirstEq : List Char → Option (List Char × List Char)
  | [] => none
  | c :: t =>
    if c = '=' then some ([], t)
    else (splitFirstEq t).map (fun p => (c :: p.1, p.2))

/-- `urllib.parse.parse_qs` on a query string, as the ordered list of
`(key, value)` pairs: fragments are separated by `&`, each fragment
is split at its first `=`, and fragments without a `=` or with an empty
value are dropped (`keep_blank_values=False`).  Percent-decoding is not
modelled; the claims only involve query strings without escapes. -/
def parse_qs_pairs (query : String) : List (String × String) :=
  (splitChars '&' query.data).filterMap fun frag =>
    match splitFirstEq frag with
    | none => none
    | some (k, v) =>
      match v with
      | [] => none
      | _ :: _ => some (String.mk k, String.mk v)

/-- The ordered list `parse_qs(qs)["code"]` of values of the `code`
parameter. -/
def codeValues (query : String) : List String :=
  (parse_qs_pairs query).filterMap fun p => if p.1 = "code" then some p.2 else none

/-- `auth_journey.get_auth_code_from_simulated_auth`, as a function of
the final redirect Location's query string: `parse_qs(qs)["code"]`
raises `KeyError` when the parameter is absent and otherwise yields the
list of values; `isinstance(auth_code, list)` is then always true, so the
function returns `auth_code[0]`, the first occurrence. -/
def get_auth_code_from_simulated_auth (query : String) : Except PyErr String :=
  match codeValues query with
  | [] => .error (.keyErr "code")
  | v :: _ => .ok v

mutual
/-- Two values are "equal as mappings": equal leaves, elementwise-related
tuples, and dicts whose entries are related pointwise up to a
permutation.  Lists compare by identity: `_recursive_make_hashable`
leaves lists untouched, and they never occur in hashable keys. -/
inductive SameVal : PyVal → PyVal → Prop where
  | num (q : ℚ) : SameVal (.num q) (.num q)
  | str (s : String) : SameVal (.str s) (.str s)
  | mark : SameVal .kwdMark .kwdMark
  | plist (xs : List PyVal) : SameVal (.plist xs) (.plist xs)
  | tuple {xs ys : List PyVal} : SameList xs ys → SameVal (.tuple xs) (.tuple ys)
  | pdict {kvs₁ kvs₂ kvs₃ : List (String × PyVal)} :
      SamePairs kvs₁ kvs₂ → kvs₂.Perm kvs₃ → SameVal (.pdict kvs₁) (.pdict kvs₃)
inductive SameList : List PyVal → List PyVal → Prop where
  | nil : SameList [] []
  | cons {x y : PyVal} {xs ys : List PyVal} :
      SameVal x y → SameList xs ys → SameList (x :: xs) (y :: ys)
inductive SamePairs : List (String × PyVal) → List (String × PyVal) → Prop where
  | nil : SamePairs [] []
  | cons {k : String} {v w : PyVal} {t₁ t₂ : List (String × PyVal)} :
      SameVal v w → SamePairs t₁ t₂ → SamePairs ((k, v) :: t₁) ((k, w) :: t₂)
end

/-- `True` iff a list of keys has no duplicates. -/
def keysNodup : List String → Bool
  | [] => true
  | k :: t => !(t.contains k) && keysNodup t

mutual
/-- Every dict reachable through dict values and tuple elements has
distinct keys — automatically true of values built from Python dicts. -/
def nodupKeysV : PyVal → Bool
  | .pdict kvs => keysNodup (kvs.map Prod.fst) && nodupKeysP kvs
  | .tuple xs => nodupKeysL xs
  | _ => true
def nodupKeysL : List PyVal → Bool
  | [] => true
  | x :: xs => nodupKeysV x && nodupKeysL xs
def nodupKeysP : List (String × PyVal) → Bool
  | [] => true
  | (_, v) :: t => nodupKeysV v && nodupKeysP t
end

/-- `charsLt` is irreflexive. -/
theorem charsLt_irrefl : ∀ l, charsLt l l = false
  | [] => rfl
  | a :: as => by simp [charsLt, charsLt_irrefl as]

/-- `charsLt` is asymmetric. -/
theorem charsLt_asymm : ∀ l₁ l₂, charsLt l₁ l₂ = true → charsLt l₂ l₁ = false
  | [], [] => by simp [charsLt]
  | [], _ :: _ => fun _ => rfl
  | _ :: _, [] => by simp [charsLt]
  | a :: as, b :: bs => by
    intro h
    by_cases hab : a < b
    · have h₁ : ¬ b < a := lt_asymm hab
      have h₂ : b ≠ a := ne_of_gt hab
      simp [charsLt, h₁, h₂]
    · by_cases heq : a = b
      · subst heq
        simp only [charsLt, lt_irrefl, if_false, if_pos rfl, if_neg hab] at h ⊢
        exact charsLt_asymm as bs h
      · simp [charsLt, hab, heq] at h

/-- Two lists neither of which is `charsLt`-below the other are equal. -/
theorem charsLt_conn : ∀ l₁ l₂, charsLt l₁ l₂ = false → charsLt l₂ l₁ = false → l₁ = l₂
  | [], [] => fun _ _ => rfl
  | [], _ :: _ => by simp [charsLt]
  | _ :: _, [] => by simp [charsLt]
  | a :: as, b :: bs => by
    intro h₁ h₂
    by_cases hab : a < b
    · simp [charsLt, hab] at h₁
    · by_cases hba : b < a
      · simp [charsLt, hba] at h₂
      · have heq : a = b := le_antisymm (not_lt.mp hba) (not_lt.mp hab)
        subst heq
        simp only [charsLt, lt_irrefl, if_false, if_pos rfl] at h₁ h₂
        rw [charsLt_conn as bs h₁ h₂]

/-- `charsLt` is transitive. -/
theorem charsLt_trans : ∀ l₁ l₂ l₃, charsLt l₁ l₂ = true → charsLt l₂ l₃ = true →
    charsLt l₁ l₃ = true
  | [], [], _ => by simp [charsLt]
  | [], _ :: _, [] => by simp [charsLt]
  | [], _ :: _, _ :: _ => by simp [charsLt]
  | _ :: _, [], _ => by simp [charsLt]
  | _ :: _, _ :: _, [] => by intro _ h; simp [charsLt] at h
  | a :: as, b :: bs, c :: cs => by
    intro h₁ h₂
    by_cases hab : a < b
    · by_cases hbc : b < c
      · simp [charsLt, lt_trans hab hbc]
      · have heq : b = c := by
          by_contra hne
          simp [charsLt, hbc, hne] at h₂
        subst heq
        simp [charsLt, hab]
    · have heq : a = b := by
        by_contra hne
        simp [charsLt, hab, hne] at h₁
      subst heq
      by_cases hbc : a < c
      · simp [charsLt, hbc]
      · have heq₂ : a = c := by
          by_contra hne
          simp [charsLt, hbc, hne] at h₂
        subst heq₂
        simp only [charsLt, lt_irrefl, if_false, if_pos rfl] at h₁ h₂ ⊢
        exact charsLt_trans as bs cs h₁ h₂

/-- `strLe` is total. -/
theorem strLe_total (a b : String) : strLe a b = true ∨ strLe b a = true := by
  by_cases h : charsLt b.data a.data = true
  · right
    simp [strLe, charsLt_asymm _ _ h]
  · left
    simp [strLe, Bool.not_eq_true _ ▸ h]

/-- `strLe` is antisymmetric. -/
theorem strLe_antisymm {a b : String} (h₁ : strLe a b = true) (h₂ : strLe b a = true) :
    a = b := by
  simp only [strLe, Bool.not_eq_true', Bool.not_eq_false] at h₁ h₂
  have h := charsLt_conn a.data b.data h₂ h₁
  cases a
  cases b
  have hd := by simpa using h
  rw [hd]

/-- `strLe` is transitive. -/
theorem strLe_trans {a b c : String} (h₁ : strLe a b = true) (h₂ : strLe b c = true) :
    strLe a c = true := by
  simp only [strLe, Bool.not_eq_true', Bool.not_eq_false] at h₁ h₂ ⊢
  by_contra hca
  rw [Bool.not_eq_false] at hca
  by_cases hab : charsLt a.data b.data = true
  · exact absurd (charsLt_trans _ _ _ hca hab) (by simp [h₂])
  · rw [Bool.not_eq_true] at hab
    have := charsLt_conn a.data b.data hab h₁
    rw [this] at hca
    simp [hca] at h₂

/-- `keyLe` is total. -/
theorem keyLe_total : ∀ p q : String × PyVal, keyLe p q ∨ keyLe q p :=
  fun p q => strLe_total p.1 q.1

/-- `keyLe` is transitive. -/
theorem keyLe_trans : ∀ p q r : String × PyVal, keyLe p q → keyLe q r → keyLe p r :=
  fun _ _ _ h₁ h₂ => strLe_trans h₁ h₂

mutual
/-- `eqV` decides equality of `PyVal`s. -/
theorem eqV_iff : ∀ a b : PyVal, eqV a b = true ↔ a = b
  | .num _, .num _ => by simp [eqV]
  | .num _, .str _ => by simp [eqV]
  | .num _, .tuple _ => by simp [eqV]
  | .num _, .pdict _ => by simp [eqV]
  | .num _, .plist _ => by simp [eqV]
  | .num _, .kwdMark => by simp [eqV]
  | .str _, .num _ => by simp [eqV]
  | .str _, .str _ => by simp [eqV]
  | .str _, .tuple _ => by simp [eqV]
  | .str _, .pdict _ => by simp [eqV]
  | .str _, .plist _ => by simp [eqV]
  | .str _, .kwdMark => by simp [eqV]
  | .tuple _, .num _ => by simp [eqV]
  | .tuple _, .str _ => by simp [eqV]
  | .tuple xs, .tuple ys => by simp [eqV, eqL_iff xs ys]
  | .tuple _, .pdict _ => by simp [eqV]
  | .tuple _, .plist _ => by simp [eqV]
  | .tuple _, .kwdMark => by simp [eqV]
  | .pdict _, .num _ => by simp [eqV]
  | .pdict _, .str _ => by simp [eqV]
  | .pdict _, .tuple _ => by simp [eqV]
  | .pdict kvs, .pdict kws => by simp [eqV, eqP_iff kvs kws]
  | .pdict _, .plist _ => by simp [eqV]
  | .pdict _, .kwdMark => by simp [eqV]
  | .plist _, .num _ => by simp [eqV]
  | .plist _, .str _ => by simp [eqV]
  | .plist _, .tuple _ => by simp [eqV]
  | .plist _, .pdict _ => by simp [eqV]
  | .plist xs, .plist ys => by simp [eqV, eqL_iff xs ys]
  | .plist _, .kwdMark => by simp [eqV]
  | .kwdMark, .num _ => by simp [eqV]
  | .kwdMark, .str _ => by simp [eqV]
  | .kwdMark, .tuple _ => by simp [eqV]
  | .kwdMark, .pdict _ => by simp [eqV]
  | .kwdMark, .plist _ => by simp [eqV]
  | .kwdMark, .kwdMark => by simp [eqV]
/-- `eqL` decides equality of lists of `PyVal`s. -/
theorem eqL_iff : ∀ xs ys : List PyVal, eqL xs ys = true ↔ xs = ys
  | [], [] => by simp [eqL]
  | [], _ :: _ => by simp [eqL]
  | _ :: _, [] => by simp [eqL]
  | x :: xs, y :: ys => by simp [eqL, eqV_iff x y, eqL_iff xs ys]
/-- `eqP` decides equality of lists of key/value pairs. -/
theorem eqP_iff : ∀ t₁ t₂ : List (String × PyVal), eqP t₁ t₂ = true ↔ t₁ = t₂
  | [], [] => by simp [eqP]
  | [], _ :: _ => by simp [eqP]
  | _ :: _, [] => by simp [eqP]
  | (k, v) :: t, (k₂, v₂) :: t₂ => by
    simp [eqP, eqV_iff v v₂, eqP_iff t t₂, Prod.ext_iff, and_assoc]
end

/-- `eqV` is reflexive. -/
theorem eqV_refl (v : PyVal) : eqV v v = true := (eqV_iff v v).mpr rfl

/-- Lookup after a dict assignment. -/
theorem alGet_alSet {β : Type} (l : List (String × β)) (k k₂ : String) (v : β) :
    alGet (alSet l k v) k₂ = if k = k₂ then some v else alGet l k₂ := by
  induction l with
  | nil => simp [alGet, alSet]
  | cons p t ih =>
    obtain ⟨k₃, v₃⟩ := p
    by_cases h : k₃ = k
    · subst h
      by_cases h₂ : k₃ = k₂ <;> simp [alGet, alSet, h₂]
    · by_cases h₂ : k₃ = k₂
      · subst h₂
        have : ¬ k = k₃ := fun hh => h hh.symm
        simp [alGet, alSet, h, this]
      · simp [alGet, alSet, h, h₂, ih]

/-- A dict assignment never produces the empty dict. -/
theorem alSet_ne_nil {β : Type} (l : List (String × β)) (k : String) (v : β) :
    alSet l k v ≠ [] := by
  cases l with
  | nil => simp [alSet]
  | cons p t =>
    obtain ⟨k₂, v₂⟩ := p
    by_cases h : k₂ = k <;> simp [alSet, h]

/-- A dict with a successful lookup is non-empty. -/
theorem alGet_some_ne_nil {β : Type} {l : List (String × β)} {k : String} {v : β}
    (h : alGet l k = some v) : l ≠ [] := by
  cases l with
  | nil => simp [alGet] at h
  | cons p t => simp

/-- Looking up after folding a list of assignments yields the last
assigned value, falling back to the initial dict. -/
theorem alGet_foldl_alSet {β : Type} (l : List (String × β)) (d : List (String × β))
    (k : String) :
    alGet (l.foldl (fun d p => alSet d p.1 p.2) d) k =
      match lastVal l k with
      | some v => some v
      | none => alGet d k := by
  induction l generalizing d with
  | nil => simp [lastVal]
  | cons p t ih =>
    rw [List.foldl_cons, ih, lastVal]
    cases lastVal t k with
    | some w => simp
    | none =>
      simp only [alGet_alSet]
      by_cases h : p.1 = k <;> simp [h]

/-- Lookup after a `_TokenCache._cache` assignment under the same key. -/
theorem cacheFind_cacheSet_self (c : Cache) (k : PyVal) (v : StrDict) :
    cacheFind (cacheSet c k v) k = some v := by
  induction c with
  | nil => simp [cacheFind, cacheSet, eqV_refl]
  | cons p t ih =>
    obtain ⟨k₂, v₂⟩ := p
    by_cases h : eqV k₂ k = true
    · simp [cacheFind, cacheSet, h]
    · simp only [Bool.not_eq_true] at h
      simp [cacheFind, cacheSet, h, ih]

/-- `int()` of a nonnegative number is its floor. -/
theorem pyInt_of_nonneg {q : ℚ} (h : 0 ≤ q) : pyInt q = ⌊q⌋ := if_pos h

/-- `int()` of a natural number literal. -/
theorem pyInt_natCast (n : ℕ) : pyInt (n : ℚ) = n := by
  rw [pyInt_of_nonneg (by positivity)]
  exact Int.floor_natCast n

/-- `sorted` returns a permutation of its input. -/
theorem sortPairs_perm (l : List (String × PyVal)) : (sortPairs l).Perm l :=
  List.perm_insertionSort keyLe l

/-- `sorted` sorts by `keyLe`. -/
theorem sortPairs_sorted (l : List (String × PyVal)) : List.Sorted keyLe (sortPairs l) := by
  haveI : IsTotal (String × PyVal) keyLe := ⟨keyLe_total⟩
  haveI : IsTrans (String × PyVal) keyLe := ⟨keyLe_trans⟩
  exact List.sorted_insertionSort keyLe l

/-- Two `keyLe`-sorted permutations of each other with duplicate-free
keys are equal. -/
theorem sorted_perm_nodup_eq : ∀ {l₁ l₂ : List (String × PyVal)}, l₁.Perm l₂ →
    List.Sorted keyLe l₁ → List.Sorted keyLe l₂ → (l₁.map Prod.fst).Nodup → l₁ = l₂ := by
  intro l₁
  induction l₁ with
  | nil =>
    intro l₂ hp _ _ _
    exact (hp.symm.eq_nil).symm
  | cons p t ih =>
    intro l₂ hp hs₁ hs₂ hnd
    cases l₂ with
    | nil => exact absurd hp.eq_nil (by simp)
    | cons q t₂ =>
      haveI : IsAntisymm String (fun a b => strLe a b = true) := ⟨fun _ _ => strLe_antisymm⟩
      have hkperm : ((p :: t).map Prod.fst).Perm ((q :: t₂).map Prod.fst) := hp.map _
      have hks₁ : List.Sorted (fun a b => strLe a b = true) ((p :: t).map Prod.fst) :=
        List.Pairwise.map Prod.fst (fun _ _ hr => hr) hs₁
      have hks₂ : List.Sorted (fun a b => strLe a b = true) ((q :: t₂).map Prod.fst) :=
        List.Pairwise.map Prod.fst (fun _ _ hr => hr) hs₂
      have hkeys : ((p :: t).map Prod.fst) = ((q :: t₂).map Prod.fst) :=
        List.eq_of_perm_of_sorted hkperm hks₁ hks₂
      simp only [List.map_cons, List.cons.injEq] at hkeys
      have hpq : p = q := by
        have hmem : p ∈ q :: t₂ := hp.mem_iff.mp (List.mem_cons_self p t)
        cases List.mem_cons.mp hmem with
        | inl h => exact h
        | inr h =>
          exfalso
          have hmem₂ : p.1 ∈ t₂.map Prod.fst := List.mem_map_of_mem Prod.fst h
          rw [← hkeys.2] at hmem₂
          simp only [List.map_cons, List.nodup_cons] at hnd
          exact hnd.1 hmem₂
      subst hpq
      have ht : t.Perm t₂ := hp.cons_inv
      have := ih ht hs₁.of_cons hs₂.of_cons (by
        simp only [List.map_cons, List.nodup_cons] at hnd
        exact hnd.2)
      rw [this]

/-- Sorting is invariant under permutation of a duplicate-key-free
input. -/
theorem sortPairs_eq_of_perm {l₁ l₂ : List (String × PyVal)} (hp : l₁.Perm l₂)
    (hnd : (l₁.map Prod.fst).Nodup) : sortPairs l₁ = sortPairs l₂ := by
  have hperm : (sortPairs l₁).Perm (sortPairs l₂) :=
    ((sortPairs_perm l₁).trans hp).trans (sortPairs_perm l₂).symm
  refine sorted_perm_nodup_eq hperm (sortPairs_sorted l₁) (sortPairs_sorted l₂) ?_
  have : ((sortPairs l₁).map Prod.fst).Perm (l₁.map Prod.fst) := (sortPairs_perm l₁).map _
  exact this.nodup_iff.mpr hnd

/-- The pairs converter is a map over the items. -/
theorem recursive_make_hashable_pairs_eq_map (l : List (String × PyVal)) :
    recursive_make_hashable_pairs l = l.map (fun p => (p.1, recursive_make_hashable p.2)) := by
  induction l with
  | nil => rfl
  | cons p t ih => obtain ⟨k, v⟩ := p; simp [recursive_make_hashable_pairs, ih]

/-- The list converter is a map over the elements. -/
theorem recursive_make_hashable_list_eq_map (l : List PyVal) :
    recursive_make_hashable_list l = l.map recursive_make_hashable := by
  induction l with
  | nil => rfl
  | cons x xs ih => simp [recursive_make_hashable_list, ih]

/-- Converting the values of a dict leaves its keys unchanged. -/
theorem recursive_make_hashable_pairs_keys (l : List (String × PyVal)) :
    (recursive_make_hashable_pairs l).map Prod.fst = l.map Prod.fst := by
  rw [recursive_make_hashable_pairs_eq_map]
  simp

/-- `keysNodup` decides `List.Nodup`. -/
theorem keysNodup_iff (l : List String) : keysNodup l = true ↔ l.Nodup := by
  induction l with
  | nil => simp [keysNodup]
  | cons k t ih => simp [keysNodup, ih, List.nodup_cons, List.contains, List.elem_iff]

mutual
/-- `_recursive_make_hashable` sends two values that are equal as
mappings (dict entries compared regardless of order) to the same
canonical form, provided every dict involved has distinct keys. -/
theorem sameVal_rmh : ∀ {v w : PyVal}, SameVal v w → nodupKeysV v = true →
    recursive_make_hashable v = recursive_make_hashable w
  | _, _, .num _, _ => rfl
  | _, _, .str _, _ => rfl
  | _, _, .mark, _ => rfl
  | _, _, .plist _, _ => rfl
  | _, _, .tuple h, hn => by
    simp only [recursive_make_hashable]
    exact congrArg PyVal.tuple (sameList_rmhList h (by simpa [nodupKeysV] using hn))
  | _, _, .pdict hsp hperm, hn => by
    rename_i kvs₁ kvs₂ kvs₃
    simp only [nodupKeysV, Bool.and_eq_true] at hn
    obtain ⟨heq, hkeys⟩ := samePairs_rmhPairs hsp hn.2
    have hknd : ((recursive_make_hashable_pairs kvs₂).map Prod.fst).Nodup := by
      rw [recursive_make_hashable_pairs_keys, ← hkeys]
      exact (keysNodup_iff _).mp hn.1
    have hperm₂ : (recursive_make_hashable_pairs kvs₂).Perm (recursive_make_hashable_pairs kvs₃) := by
      rw [recursive_make_hashable_pairs_eq_map, recursive_make_hashable_pairs_eq_map]
      exact hperm.map _
    simp only [recursive_make_hashable]
    rw [heq, sortPairs_eq_of_perm hperm₂ hknd]
/-- Elementwise version of `sameVal_rmh`. -/
theorem sameList_rmhList : ∀ {xs ys : List PyVal}, SameList xs ys → nodupKeysL xs = true →
    recursive_make_hashable_list xs = recursive_make_hashable_list ys
  | _, _, .nil, _ => rfl
  | _, _, .cons hv ht, hn => by
    simp only [nodupKeysL, Bool.and_eq_true] at hn
    simp only [recursive_make_hashable_list]
    rw [sameVal_rmh hv hn.1, sameList_rmhList ht hn.2]
/-- Pairwise version of `sameVal_rmh`; also records that related item
lists carry the same keys in the same order. -/
theorem samePairs_rmhPairs : ∀ {t₁ t₂ : List (String × PyVal)}, SamePairs t₁ t₂ →
    nodupKeysP t₁ = true →
    recursive_make_hashable_pairs t₁ = recursive_make_hashable_pairs t₂ ∧
      t₁.map Prod.fst = t₂.map Prod.fst
  | _, _, .nil, _ => ⟨rfl, rfl⟩
  | _, _, .cons hv ht, hn => by
    simp only [nodupKeysP, Bool.and_eq_true] at hn
    obtain ⟨h₁, h₂⟩ := samePairs_rmhPairs ht hn.2
    exact ⟨by simp only [recursive_make_hashable_pairs]
              rw [sameVal_rmh hv hn.1, h₁],
           by simp [h₂]⟩
end

/-- `isHashableL` is `List.all isHashable`. -/
theorem isHashableL_eq_all (xs : List PyVal) : isHashableL xs = xs.all isHashable := by
  induction xs with
  | nil => rfl
  | cons x t ih => simp [isHashableL, ih]

/-- A pair list containing an unhashable value yields an unhashable
items-tuple list, whatever the sort order. -/
theorem pairs_bad_unhashable {l : List (String × PyVal)} {p : String × PyVal}
    (hm : p ∈ l) (hb : isHashable p.2 = false) :
    isHashableL (pairsToTuples (sortPairs l)) = false := by
  have hm₂ : p ∈ sortPairs l := ((sortPairs_perm l).mem_iff).mpr hm
  have hm₃ : PyVal.tuple [PyVal.str p.1, p.2] ∈ pairsToTuples (sortPairs l) :=
    List.mem_map_of_mem _ hm₂
  rw [isHashableL_eq_all]
  rw [Bool.eq_false_iff]
  intro hall
  rw [List.all_eq_true] at hall
  have := hall _ hm₃
  simp [isHashable, isHashableL, hb] at this

mutual
/-- A value containing a Python list canonicalises to an unhashable
value: `_recursive_make_hashable` leaves the list in place. -/
theorem containsPlist_rmh : ∀ v, containsPlist v = true →
    isHashable (recursive_make_hashable v) = false
  | .plist _, _ => rfl
  | .tuple xs, h => by
    simp only [recursive_make_hashable, isHashable]
    exact containsPlistL_rmh xs (by simpa [containsPlist] using h)
  | .pdict kvs, h => by
    simp only [recursive_make_hashable, isHashable]
    obtain ⟨p, hm, hb⟩ := containsPlistP_bad kvs (by simpa [containsPlist] using h)
    exact pairs_bad_unhashable hm hb
  | .num _, h => by simp [containsPlist] at h
  | .str _, h => by simp [containsPlist] at h
  | .kwdMark, h => by simp [containsPlist] at h
/-- Elementwise version of `containsPlist_rmh`. -/
theorem containsPlistL_rmh : ∀ xs, containsPlistL xs = true →
    isHashableL (recursive_make_hashable_list xs) = false
  | [], h => by simp [containsPlistL] at h
  | x :: xs, h => by
    simp only [containsPlistL, Bool.or_eq_true] at h
    simp only [recursive_make_hashable_list, isHashableL]
    cases h with
    | inl h => simp [containsPlist_rmh x h]
    | inr h => simp [containsPlistL_rmh xs h]
/-- A pair list containing a list in a value has, after conversion, some
unhashable value. -/
theorem containsPlistP_bad : ∀ t, containsPlistP t = true →
    ∃ p ∈ recursive_make_hashable_pairs t, isHashable p.2 = false
  | [], h => by simp [containsPlistP] at h
  | (k, v) :: t, h => by
    simp only [containsPlistP, Bool.or_eq_true] at h
    cases h with
    | inl h =>
      refine ⟨(k, recursive_make_hashable v), ?_, containsPlist_rmh v h⟩
      simp [recursive_make_hashable_pairs]
    | inr h =>
      obtain ⟨p, hm, hb⟩ := containsPlistP_bad t h
      exact ⟨p, by simp [recursive_make_hashable_pairs, hm], hb⟩
end

/-- After the prologue, `_CACHES` has an entry for the function. -/
theorem alGet_ensureCache_self (cs : Caches) (fn : String) :
    alGet (ensureCache cs fn) fn = some ((alGet cs fn).getD []) := by
  unfold ensureCache
  cases h : alGet cs fn with
  | some c => simp [h]
  | none => simp [alGet_alSet]

/-- The prologue leaves other functions' caches alone. -/
theorem alGet_ensureCache_ne (cs : Caches) {fn g : String} (h : fn ≠ g) :
    alGet (ensureCache cs fn) g = alGet cs g := by
  unfold ensureCache
  cases hc : alGet cs fn with
  | some c => rfl
  | none => simp [alGet_alSet, h]

/-- The prologue is the identity when the entry exists. -/
theorem ensureCache_of_some {cs : Caches} {fn : String} {c : Cache}
    (h : alGet cs fn = some c) : ensureCache cs fn = cs := by
  unfold ensureCache
  simp [h]

/-- `get` raises `TypeError` on an unhashable key. -/
theorem tokenCache_get_not_hashable {now : ℚ} {key : PyVal} {c : Cache}
    (h : isHashable key = false) : tokenCache_get now key c = .error .typeErr := by
  simp [tokenCache_get, h]

/-- `get` misses without touching the cache when the key is absent. -/
theorem tokenCache_get_miss {now : ℚ} {key : PyVal} {c : Cache}
    (h₁ : isHashable key = true) (h₂ : cacheFind c key = none) :
    tokenCache_get now key c = .ok (none, c) := by
  simp [tokenCache_get, h₁, h₂]

/-- `get` returns an entry the code does not regard as expired. -/
theorem tokenCache_get_fresh {now qi qe : ℚ} {key : PyVal} {c : Cache} {td : StrDict}
    (h₁ : isHashable key = true) (h₂ : cacheFind c key = some td)
    (hi : alGet td "issued_at" = some (.num qi))
    (he : alGet td "expires_in" = some (.num qe))
    (hle : pyInt now + 5 ≤ pyInt qi + 1000 * pyInt qe) :
    tokenCache_get now key c = .ok (some td, c) := by
  simp only [tokenCache_get, h₁, h₂, hi, he, if_true]
  rw [if_neg (by omega)]

/-- `get` evicts and misses on an entry the code regards as expired. -/
theorem tokenCache_get_expired {now qi qe : ℚ} {key : PyVal} {c : Cache} {td : StrDict}
    (h₁ : isHashable key = true) (h₂ : cacheFind c key = some td)
    (hi : alGet td "issued_at" = some (.num qi))
    (he : alGet td "expires_in" = some (.num qe))
    (hlt : pyInt qi + 1000 * pyInt qe < pyInt now + 5) :
    tokenCache_get now key c = .ok (none, cacheErase c key) := by
  simp only [tokenCache_get, h₁, h₂, hi, he, if_true]
  rw [if_pos (by omega)]

/-- On a miss, `get` returned either the untouched cache or the cache
with the entry under the key evicted. -/
theorem tokenCache_get_none_cases {now : ℚ} {key : PyVal} {c c₁ : Cache}
    (h : tokenCache_get now key c = .ok (none, c₁)) :
    c₁ = c ∨ c₁ = cacheErase c key := by
  unfold tokenCache_get at h
  repeat' split at h
  all_goals try (simp only [] at h; split at h)
  all_goals first
    | exact Or.inl (by simpa using h.symm)
    | exact Or.inr (by simpa using h.symm)

/-- The wrapper propagates an exception from `get`. -/
theorem wrapper_get_error {fname : String} {f : List PyVal → StrDict → Except PyErr StrDict}
    {args : List PyVal} {kwargs : StrDict} {now : ℚ} {cs : Caches} {e : PyErr}
    (hget : tokenCache_get now (cacheKey args kwargs)
      ((alGet (ensureCache cs fname) fname).getD []) = .error e) :
    cache_tokens_wrapper fname f args kwargs now cs = ⟨.error e, ensureCache cs fname, 0⟩ := by
  simp only [cache_tokens_wrapper, hget]

/-- The wrapper returns a truthy cached payload without fetching. -/
theorem wrapper_hit {fname : String} {f : List PyVal → StrDict → Except PyErr StrDict}
    {args : List PyVal} {kwargs : StrDict} {now : ℚ} {cs : Caches}
    {kv : String × PyVal} {rest : StrDict} {c₁ : Cache}
    (hget : tokenCache_get now (cacheKey args kwargs)
      ((alGet (ensureCache cs fname) fname).getD []) = .ok (some (kv :: rest), c₁)) :
    cache_tokens_wrapper fname f args kwargs now cs =
      ⟨.ok (kv :: rest), alSet (ensureCache cs fname) fname c₁, 0⟩ := by
  simp only [cache_tokens_wrapper, hget]

/-- On a miss, the wrapper fetches and inserts the fetched payload. -/
theorem wrapper_miss_fetch_ok {fname : String}
    {f : List PyVal → StrDict → Except PyErr StrDict}
    {args : List PyVal} {kwargs : StrDict} {now : ℚ} {cs : Caches}
    {c₁ : Cache} {td : StrDict}
    (hget : tokenCache_get now (cacheKey args kwargs)
      ((alGet (ensureCache cs fname) fname).getD []) = .ok (none, c₁))
    (hf : f args kwargs = .ok td) :
    cache_tokens_wrapper fname f args kwargs now cs =
      ⟨.ok (tokenCache_insert now (cacheKey args kwargs) td c₁).1,
       alSet (ensureCache cs fname) fname
         (tokenCache_insert now (cacheKey args kwargs) td c₁).2, 1⟩ := by
  simp only [cache_tokens_wrapper, hget, hf]

/-- On a miss, an exception from the fetch propagates; `insert` is not
reached. -/
theorem wrapper_miss_fetch_error {fname : String}
    {f : List PyVal → StrDict → Except PyErr StrDict}
    {args : List PyVal} {kwargs : StrDict} {now : ℚ} {cs : Caches}
    {c₁ : Cache} {e : PyErr}
    (hget : tokenCache_get now (cacheKey args kwargs)
      ((alGet (ensureCache cs fname) fname).getD []) = .ok (none, c₁))
    (hf : f args kwargs = .error e) :
    cache_tokens_wrapper fname f args kwargs now cs =
      ⟨.error e, alSet (ensureCache cs fname) fname c₁, 1⟩ := by
  simp only [cache_tokens_wrapper, hget, hf]

/-- A list with the sentinel marked in the middle determines its two
sentinel-free-prefix parts. -/
theorem mark_append_inj : ∀ {xs xs₂ ys ys₂ : List PyVal},
    PyVal.kwdMark ∉ xs → PyVal.kwdMark ∉ xs₂ →
    xs ++ PyVal.kwdMark :: ys = xs₂ ++ PyVal.kwdMark :: ys₂ → xs = xs₂ ∧ ys = ys₂ := by
  intro xs
  induction xs with
  | nil =>
    intro xs₂ ys ys₂ _ h₂ h
    cases xs₂ with
    | nil => simpa using h
    | cons b t₂ =>
      simp only [List.nil_append, List.cons_append, List.cons.injEq] at h
      exact absurd (h.1 ▸ List.mem_cons_self b t₂) h₂
  | cons a t ih =>
    intro xs₂ ys ys₂ h₁ h₂ h
    cases xs₂ with
    | nil =>
      simp only [List.nil_append, List.cons_append, List.cons.injEq] at h
      exact absurd (h.1 ▸ List.mem_cons_self a t) h₁
    | cons b t₂ =>
      simp only [List.cons_append, List.cons.injEq] at h
      have := ih (fun hm => h₁ (List.mem_cons_of_mem a hm))
        (fun hm => h₂ (List.mem_cons_of_mem b hm)) h.2
      exact ⟨by rw [h.1, this.1], this.2⟩

/-- Canonicalisation maps only the sentinel to the sentinel. -/
theorem rmh_eq_kwdMark_iff (v : PyVal) :
    recursive_make_hashable v = .kwdMark ↔ v = .kwdMark := by
  cases v <;> simp [recursive_make_hashable]

/-- The canonical form of sentinel-free positional arguments is
sentinel-free. -/
theorem kwdMark_not_mem_rmhList {args : List PyVal} (h : PyVal.kwdMark ∉ args) :
    PyVal.kwdMark ∉ recursive_make_hashable_list args := by
  rw [recursive_make_hashable_list_eq_map]
  intro hm
  obtain ⟨a, ha, heq⟩ := List.mem_map.mp hm
  exact h (((rmh_eq_kwdMark_iff a).mp heq) ▸ ha)

/-- The canonical keyword-argument part never contains the sentinel. -/
theorem kwdMark_not_mem_kwargsCanon (kwargs : StrDict) :
    PyVal.kwdMark ∉ kwargsCanon kwargs := by
  unfold kwargsCanon pairsToTuples
  intro hm
  obtain ⟨p, _, heq⟩ := List.mem_map.mp hm
  simp at heq

/-- The items-tuple encoding of a pair list is injective. -/
theorem pairsToTuples_inj : ∀ {l₁ l₂ : List (String × PyVal)},
    pairsToTuples l₁ = pairsToTuples l₂ → l₁ = l₂ := by
  intro l₁
  induction l₁ with
  | nil =>
    intro l₂ h
    cases l₂ with
    | nil => rfl
    | cons q t₂ => simp [pairsToTuples] at h
  | cons p t ih =>
    intro l₂ h
    cases l₂ with
    | nil => simp [pairsToTuples] at h
    | cons q t₂ =>
      simp only [pairsToTuples, List.map_cons, List.cons.injEq] at h
      obtain ⟨h₁, h₂⟩ := h
      simp only [PyVal.tuple.injEq, List.cons.injEq, PyVal.str.injEq] at h₁
      have : p = q := Prod.ext h₁.1 h₁.2.1
      rw [this, ih h₂]

/-- `wrapper_hit` restated for a payload only known to be non-empty. -/
theorem wrapper_hit_ne {fname : String} {f : List PyVal → StrDict → Except PyErr StrDict}
    {args : List PyVal} {kwargs : StrDict} {now : ℚ} {cs : Caches}
    {td : StrDict} {c₁ : Cache}
    (hget : tokenCache_get now (cacheKey args kwargs)
      ((alGet (ensureCache cs fname) fname).getD []) = .ok (some td, c₁))
    (hne : td ≠ []) :
    cache_tokens_wrapper fname f args kwargs now cs =
      ⟨.ok td, alSet (ensureCache cs fname) fname c₁, 0⟩ := by
  obtain ⟨kv, rest, rfl⟩ : ∃ kv rest, td = kv :: rest := by
    cases td with
    | nil => exact absurd rfl hne
    | cons kv rest => exact ⟨kv, rest, rfl⟩
  exact wrapper_hit hget

/-- Two consecutive wrapper calls against fetch function `f`: the first
at time `t₀` with `(args, kwargs)` starting from a state with no entry
under the key, the second at time `t` with keyword arguments hashing to
the same key.  Provided the fetched payload's `expires_in` is a natural
number `E` with the stated slack (at least 6 when `insert` synthesises
`issued_at`; at least 1 when the payload carries a nonnegative integral
`issued_at` and `t` is below `issued_at + E` seconds), the pair performs
exactly one fetch and both calls return the same stored payload. -/
theorem wrapper_pair_spec
    (fname : String) (f : List PyVal → StrDict → Except PyErr StrDict)
    (args : List PyVal) (kwargs kwargs₂ : StrDict) (t₀ t : ℚ) (cs₀ : Caches)
    (td : StrDict) (E : ℕ)
    (hkeq : cacheKey args kwargs₂ = cacheKey args kwargs)
    (hkey : isHashable (cacheKey args kwargs) = true)
    (hmiss : cacheFind ((alGet cs₀ fname).getD []) (cacheKey args kwargs) = none)
    (hf : f args kwargs = .ok td)
    (hexp : alGet td "expires_in" = some (.num (E : ℚ)))
    (ht₀ : (5000 : ℚ) ≤ t₀) (htt : t₀ ≤ t)
    (hwin : pyInt t ≤ pyInt t₀ + E)
    (hcase : (alGet td "issued_at" = none ∧ 6 ≤ E) ∨
      (∃ T : ℕ, alGet td "issued_at" = some (.num (T : ℚ)) ∧ 1 ≤ E ∧
        pyInt t ≤ (T : ℤ) + E)) :
    (cache_tokens_wrapper fname f args kwargs t₀ cs₀).fetches = 1 ∧
    (cache_tokens_wrapper fname f args kwargs₂ t
        (cache_tokens_wrapper fname f args kwargs t₀ cs₀).caches).fetches = 0 ∧
    (cache_tokens_wrapper fname f args kwargs₂ t
        (cache_tokens_wrapper fname f args kwargs t₀ cs₀).caches).ret =
      (cache_tokens_wrapper fname f args kwargs t₀ cs₀).ret ∧
    (cache_tokens_wrapper fname f args kwargs t₀ cs₀).ret =
      .ok (tokenCache_insert t₀ (cacheKey args kwargs) td
            ((alGet cs₀ fname).getD [])).1 := by
  set key := cacheKey args kwargs with hkeydef
  set c₀ : Cache := (alGet cs₀ fname).getD [] with hc₀
  have hens₁ : (alGet (ensureCache cs₀ fname) fname).getD [] = c₀ := by
    rw [alGet_ensureCache_self]
    rfl
  have hget₁ : tokenCache_get t₀ key ((alGet (ensureCache cs₀ fname) fname).getD []) =
      .ok (none, c₀) := by
    rw [hens₁]
    exact tokenCache_get_miss hkey hmiss
  have hr₁ := @wrapper_miss_fetch_ok fname f args kwargs t₀ cs₀ _ _ hget₁ hf
  set td₁ : StrDict := (tokenCache_insert t₀ key td c₀).1 with htd₁
  set c₁ : Cache := (tokenCache_insert t₀ key td c₀).2 with hc₁
  have hc₁set : c₁ = cacheSet c₀ key td₁ := by
    rw [hc₁, htd₁]
    unfold tokenCache_insert
    rfl
  -- positivity of the clocks
  have h0t₀ : (0 : ℚ) ≤ t₀ := le_trans (by norm_num) ht₀
  have h0t : (0 : ℚ) ≤ t := le_trans h0t₀ htt
  have hpt : pyInt t = ⌊t⌋ := pyInt_of_nonneg h0t
  have hpt₀ : pyInt t₀ = ⌊t₀⌋ := pyInt_of_nonneg h0t₀
  -- the stored payload and its fields
  have hfields : alGet td₁ "issued_at" = some (.num (t₀ - 5000)) ∧
      alGet td₁ "expires_in" = some (.num (E : ℚ)) ∧ td₁ ≠ [] ∨
      td₁ = td := by
    cases hiss : alGet td "issued_at" with
    | none =>
      left
      rw [htd₁]
      unfold tokenCache_insert
      simp only [hiss]
      refine ⟨?_, ?_, alSet_ne_nil _ _ _⟩
      · rw [alGet_alSet]
        simp
      · rw [alGet_alSet]
        simp only [if_neg (by decide : ¬ ("issued_at" = "expires_in"))]
        exact hexp
    | some vi =>
      right
      rw [htd₁]
      unfold tokenCache_insert
      simp [hiss]
  -- the (code's) freshness bound at time t for the stored payload
  have hfresh : ∃ qi : ℚ, alGet td₁ "issued_at" = some (.num qi) ∧
      pyInt t + 5 ≤ pyInt qi + 1000 * pyInt ((E : ℚ)) := by
    cases hcase with
    | inl hA =>
      obtain ⟨hiss, hE6⟩ := hA
      have : alGet td₁ "issued_at" = some (.num (t₀ - 5000)) := by
        rw [htd₁]
        unfold tokenCache_insert
        simp only [hiss]
        rw [alGet_alSet]
        simp
      refine ⟨t₀ - 5000, this, ?_⟩
      have hsub : pyInt (t₀ - 5000) = ⌊t₀⌋ - 5000 := by
        rw [pyInt_of_nonneg (by linarith)]
        rw [show ((5000 : ℚ)) = ((5000 : ℤ) : ℚ) by norm_num, Int.floor_sub_int]
      rw [hsub, pyInt_natCast]
      rw [hpt, hpt₀] at hwin
      omega
    | inr hB =>
      obtain ⟨T, hiss, hE1, hTw⟩ := hB
      have htd₁td : td₁ = td := by
        rw [htd₁]
        unfold tokenCache_insert
        simp [hiss]
      refine ⟨(T : ℚ), by rw [htd₁td]; exact hiss, ?_⟩
      rw [pyInt_natCast, pyInt_natCast]
      rw [hpt] at hTw
      rw [hpt]
      omega
  obtain ⟨qi, hqi, hle⟩ := hfresh
  have hexp₁ : alGet td₁ "expires_in" = some (.num (E : ℚ)) := by
    cases hfields with
    | inl h => exact h.2.1
    | inr h => rw [h]; exact hexp
  have hne₁ : td₁ ≠ [] := by
    cases hfields with
    | inl h => exact h.2.2
    | inr h => rw [h]; exact alGet_some_ne_nil hexp
  -- second call state
  have hcs₂ : alGet (cache_tokens_wrapper fname f args kwargs t₀ cs₀).caches fname =
      some c₁ := by
    rw [hr₁]
    simp [alGet_alSet]
  have hens₂ : ensureCache (cache_tokens_wrapper fname f args kwargs t₀ cs₀).caches fname =
      (cache_tokens_wrapper fname f args kwargs t₀ cs₀).caches :=
    ensureCache_of_some hcs₂
  have hget₂ : tokenCache_get t (cacheKey args kwargs₂)
      ((alGet (ensureCache (cache_tokens_wrapper fname f args kwargs t₀ cs₀).caches
        fname) fname).getD []) = .ok (some td₁, c₁) := by
    rw [hens₂, hcs₂, hkeq]
    show tokenCache_get t key c₁ = .ok (some td₁, c₁)
    refine tokenCache_get_fresh hkey ?_ hqi hexp₁ hle
    rw [hc₁set]
    exact cacheFind_cacheSet_self c₀ key td₁
  have hr₂ := @wrapper_hit_ne fname f args kwargs₂ t _ _ _ hget₂ hne₁
  constructor
  · rw [hr₁]
  constructor
  · rw [hr₂]
  constructor
  · rw [hr₂, hr₁]
  · rw [hr₁]

/-- A tuple with an unhashable element is unhashable. -/
theorem isHashableL_false_of_mem {x : PyVal} {xs : List PyVal}
    (hm : x ∈ xs) (hb : isHashable x = false) : isHashableL xs = false := by
  rw [isHashableL_eq_all, List.all_eq_false]
  exact ⟨x, hm, by simp [hb]⟩

/-- C7: every JWT client assertion built by
`get_access_token_via_signed_jwt_flow` has `sub = iss = client_id`,
`aud` the token endpoint URL, `exp = int(now) + 300`, carries the
configured `kid` in its header, is signed with the configured private
key using RS512, and two assertions built from the same configuration
coincide exactly when their (freshly drawn) `jti` values coincide. -/
theorem c7_signed_jwt_assertion_shape (base cid key kid : String) (now : ℚ)
    (j j₂ : String) :
    (get_access_token_via_signed_jwt_flow_assertion base cid key kid now j).sub = cid ∧
    (get_access_token_via_signed_jwt_flow_assertion base cid key kid now j).iss = cid ∧
    (get_access_token_via_signed_jwt_flow_assertion base cid key kid now j).aud =
      base ++ "/token" ∧
    (get_access_token_via_signed_jwt_flow_assertion base cid key kid now j).exp =
      pyInt now + 300 ∧
    (get_access_token_via_signed_jwt_flow_assertion base cid key kid now j).header_kid = kid ∧
    (get_access_token_via_signed_jwt_flow_assertion base cid key kid now j).header_alg =
      "RS512" ∧
    (get_access_token_via_signed_jwt_flow_assertion base cid key kid now j).signing_key =
      key ∧
    (get_access_token_via_signed_jwt_flow_assertion base cid key kid now j =
      get_access_token_via_signed_jwt_flow_assertion base cid key kid now j₂ ↔ j = j₂) := by
  refine ⟨rfl, rfl, rfl, rfl, rfl, rfl, rfl, ?_, ?_⟩
  · intro h
    exact congrArg ClientAssertion.jti h
  · intro h
    rw [h]

/-- C8: the submitted login form maps each input name to its
pre-populated value unless the caller-supplied overlay also binds it, in
which case the overlay wins; names bound only in the overlay are
included; and on the spec's concrete example the payload is exactly
`{username: "other", csrf: "xyz"}`. -/
theorem c8_form_override (inputs login_options : List (String × String)) (nm : String) :
    (alGet (get_authorize_form_submission_data inputs login_options) nm =
      match lastVal login_options nm with
      | some v => some v
      | none => lastVal inputs nm) ∧
    get_authorize_form_submission_data [("username", "default"), ("csrf", "xyz")]
      [("username", "other")] = [("username", "other"), ("csrf", "xyz")] := by
  constructor
  · unfold get_authorize_form_submission_data
    rw [alGet_foldl_alSet]
    cases lastVal login_options nm with
    | some v => rfl
    | none =>
      rw [alGet_foldl_alSet]
      cases lastVal inputs nm with
      | some v => rfl
      | none => rfl
  · rfl

/-- C9: the authorization-code extraction returns the first value of the
`code` query parameter whenever at least one is present — in particular
the first of several duplicates, without raising. -/
theorem c9_first_code_param (query v : String) (rest : List String)
    (h : codeValues query = v :: rest) :
    get_auth_code_from_simulated_auth query = .ok v := by
  unfold get_auth_code_from_simulated_auth
  rw [h]

/-- Witness for C9 at a query string carrying `code` twice: the first
occurrence wins. -/
theorem c9_first_code_param_witness :
    codeValues "state=1&code=abc&code=def" = "abc" :: ["def"] ∧
    get_auth_code_from_simulated_auth "state=1&code=abc&code=def" = .ok "abc" :=
  ⟨rfl, c9_first_code_param _ "abc" ["def"] rfl⟩

/-- C10: a wrapped call in which some positional argument or some
keyword-argument value contains a Python list raises `TypeError` at the
cache lookup: the fetch function is never invoked, and no token is
cached. -/
theorem c10_unhashable_type_error (fname : String)
    (f : List PyVal → StrDict → Except PyErr StrDict)
    (args : List PyVal) (kwargs : StrDict) (now : ℚ) (cs : Caches)
    (h : containsPlistL args = true ∨ containsPlistP kwargs = true) :
    cache_tokens_wrapper fname f args kwargs now cs =
      ⟨.error .typeErr, ensureCache cs fname, 0⟩ := by
  have hkey : isHashable (cacheKey args kwargs) = false := by
    show isHashableL (recursive_make_hashable_list args ++ [PyVal.kwdMark] ++
      kwargsCanon kwargs) = false
    cases h with
    | inl h =>
      have hL := containsPlistL_rmh args h
      rw [isHashableL_eq_all, List.all_eq_false] at hL
      obtain ⟨x, hm, hb⟩ := hL
      exact isHashableL_false_of_mem (x := x) (by simp [hm]) (by simpa using hb)
    | inr h =>
      obtain ⟨p, hm, hb⟩ := containsPlistP_bad kwargs h
      have hB := pairs_bad_unhashable hm hb
      rw [isHashableL_eq_all, List.all_eq_false] at hB
      obtain ⟨x, hmx, hbx⟩ := hB
      refine isHashableL_false_of_mem (x := x) ?_ (by simpa using hbx)
      simp [kwargsCanon]
      right
      right
      simpa [pairsToTuples] using hmx
  exact wrapper_get_error (tokenCache_get_not_hashable hkey)

/-- Witness for C10: a call whose only argument is a Python list raises
`TypeError` with zero fetches. -/
theorem c10_unhashable_type_error_witness :
    cache_tokens_wrapper "get_access_token" (fun _ _ => .ok []) [PyVal.plist []] [] 0 [] =
      ⟨.error .typeErr, ensureCache [] "get_access_token", 0⟩ :=
  c10_unhashable_type_error "get_access_token" _ _ _ 0 [] (Or.inl rfl)

/-- C4 counterexample: a dict argument and the tuple-of-items argument
are different values but receive identical cache keys. -/
theorem c4_counterexample :
    cacheKey [PyVal.pdict [("a", PyVal.num 1)]] [] =
      cacheKey [PyVal.tuple [PyVal.tuple [PyVal.str "a", PyVal.num 1]]] [] ∧
    PyVal.pdict [("a", PyVal.num 1)] ≠
      PyVal.tuple [PyVal.tuple [PyVal.str "a", PyVal.num 1]] := by
  refine ⟨rfl, ?_⟩
  intro h
  exact PyVal.noConfusion h

/-- C4 (amended): for sentinel-free arguments, two calls collide on the
cache key exactly when the canonical forms of their positional arguments
and of their keyword arguments agree. -/
theorem c4_cache_key_iff {args args₂ : List PyVal} (kwargs kwargs₂ : StrDict)
    (hm : PyVal.kwdMark ∉ args) (hm₂ : PyVal.kwdMark ∉ args₂) :
    cacheKey args kwargs = cacheKey args₂ kwargs₂ ↔
      (recursive_make_hashable_list args = recursive_make_hashable_list args₂ ∧
       sortPairs (recursive_make_hashable_pairs kwargs) =
         sortPairs (recursive_make_hashable_pairs kwargs₂)) := by
  constructor
  · intro h
    simp only [cacheKey, PyVal.tuple.injEq, List.append_assoc, List.singleton_append] at h
    have hsep := mark_append_inj (kwdMark_not_mem_rmhList hm)
      (kwdMark_not_mem_rmhList hm₂) h
    refine ⟨hsep.1, pairsToTuples_inj ?_⟩
    have := hsep.2
    simpa [kwargsCanon] using this
  · intro h
    simp only [cacheKey, kwargsCanon, h.1, h.2]

/-- Witness for C4's amended claim at concrete arguments. -/
theorem c4_cache_key_iff_witness :
    cacheKey [PyVal.num 1] [("a", PyVal.num 2)] =
        cacheKey [PyVal.num 1] [("b", PyVal.num 3)] ↔
      (recursive_make_hashable_list [PyVal.num 1] =
         recursive_make_hashable_list [PyVal.num 1] ∧
       sortPairs (recursive_make_hashable_pairs [("a", PyVal.num 2)]) =
         sortPairs (recursive_make_hashable_pairs [("b", PyVal.num 3)])) :=
  c4_cache_key_iff _ _ (by simp) (by simp)

/-- C1 at the failing input: for a cache entry with
`issued_at = 1700000000000` (milliseconds) and `expires_in = 600`
(seconds), a lookup at wall-clock time `1700000601 = T/1000 + E + 1`
seconds — one second past the claimed expiry deadline — returns the
cached token and leaves the entry in place, because `get` compares
`now_ish` (seconds) against `expiry_time` (milliseconds).  The claim
(and the docstring "Return a non-expired access token") expects a miss
and an eviction here. -/
theorem c1_get_returns_expired_entry :
    tokenCache_get 1700000601 (.str "k")
        [(.str "k",
          [("access_token", PyVal.str "tok"), ("expires_in", PyVal.num 600),
           ("issued_at", PyVal.num 1700000000000)])] =
      .ok (some [("access_token", PyVal.str "tok"), ("expires_in", PyVal.num 600),
            ("issued_at", PyVal.num 1700000000000)],
        [(.str "k",
          [("access_token", PyVal.str "tok"), ("expires_in", PyVal.num 600),
           ("issued_at", PyVal.num 1700000000000)])]) ∧
    (1700000601 : ℚ) = 1700000000000 / 1000 + 600 + 1 := by
  constructor
  · rfl
  · norm_num

/-- C2 at the failing input: inserting a payload without `issued_at` at
wall-clock time `1700000000` stores `issued_at = time() - 5000 =
1699995000`.  Read as the milliseconds timestamp `get` expects, that is
nowhere near "now" — it is smaller than `1000 * time() - 10000`, the
low end of any millisecond timestamp a few seconds in the past — so the
synthesized value is 5000 seconds in the past in the wrong unit rather
than a few seconds in the past in milliseconds. -/
theorem c2_insert_synthesizes_wrong_unit :
    alGet (tokenCache_insert 1700000000 (.str "k")
        [("access_token", PyVal.str "tok"), ("expires_in", PyVal.num 600)] []).1
        "issued_at" = some (.num (1700000000 - 5000)) ∧
    (1700000000 : ℚ) - 5000 = 1699995000 ∧
    (1699995000 : ℚ) < 1000 * 1700000000 - 10000 := by
  refine ⟨rfl, by norm_num, by norm_num⟩

/-- C6 (amended): when the fetch function raises, the wrapper propagates
the exception and inserts nothing: after the call the per-function cache
is exactly what the lookup left — the prior contents, or the prior
contents minus the already-expired entry under this key that `get`
evicted — and every other function's cache is untouched. -/
theorem c6_no_insert_on_error
    (fname : String) (f : List PyVal → StrDict → Except PyErr StrDict)
    (args : List PyVal) (kwargs : StrDict) (now : ℚ) (cs : Caches)
    (c₁ : Cache) (e : PyErr)
    (hget : tokenCache_get now (cacheKey args kwargs) ((alGet cs fname).getD []) =
      .ok (none, c₁))
    (hf : f args kwargs = .error e) :
    (cache_tokens_wrapper fname f args kwargs now cs).ret = .error e ∧
    (cache_tokens_wrapper fname f args kwargs now cs).fetches = 1 ∧
    alGet (cache_tokens_wrapper fname f args kwargs now cs).caches fname = some c₁ ∧
    (c₁ = (alGet cs fname).getD [] ∨
     c₁ = cacheErase ((alGet cs fname).getD []) (cacheKey args kwargs)) ∧
    (∀ g, g ≠ fname →
      alGet (cache_tokens_wrapper fname f args kwargs now cs).caches g = alGet cs g) := by
  have hens : (alGet (ensureCache cs fname) fname).getD [] = (alGet cs fname).getD [] := by
    rw [alGet_ensureCache_self]
    rfl
  have hget₂ : tokenCache_get now (cacheKey args kwargs)
      ((alGet (ensureCache cs fname) fname).getD []) = .ok (none, c₁) := by
    rw [hens]
    exact hget
  have hr := @wrapper_miss_fetch_error fname f args kwargs now cs _ _ hget₂ hf
  refine ⟨by rw [hr], by rw [hr], ?_, tokenCache_get_none_cases hget, ?_⟩
  · rw [hr]
    simp [alGet_alSet]
  · intro g hg
    rw [hr]
    show alGet (alSet (ensureCache cs fname) fname c₁) g = alGet cs g
    rw [alGet_alSet, if_neg (fun h => hg h.symm)]
    exact alGet_ensureCache_ne cs (fun h => hg h.symm)

/-- Witness for C6's amended claim: an erroring fetch on a fresh cache
propagates the error and leaves every cache entry as the lookup left
it. -/
theorem c6_no_insert_on_error_witness :
    (cache_tokens_wrapper "get_access_token" (fun _ _ => .error (.userErr 3)) [] [] 0
        []).ret = .error (.userErr 3) ∧
    (cache_tokens_wrapper "get_access_token" (fun _ _ => .error (.userErr 3)) [] [] 0
        []).fetches = 1 ∧
    alGet (cache_tokens_wrapper "get_access_token" (fun _ _ => .error (.userErr 3)) [] [] 0
        []).caches "get_access_token" = some [] ∧
    (([] : Cache) = (alGet ([] : Caches) "get_access_token").getD [] ∨
     ([] : Cache) = cacheErase ((alGet ([] : Caches) "get_access_token").getD [])
       (cacheKey [] [])) ∧
    (∀ g, g ≠ "get_access_token" →
      alGet (cache_tokens_wrapper "get_access_token" (fun _ _ => .error (.userErr 3)) [] []
        0 []).caches g = alGet ([] : Caches) g) :=
  c6_no_insert_on_error "get_access_token" _ [] [] 0 [] [] (.userErr 3) rfl rfl

/-- C3 (amended): calling the wrapper twice with identical arguments —
the second call inside the token's validity window — performs exactly
one fetch and returns equal payloads, provided the fetched payload's
`expires_in` is a natural number at least 6 when the payload lacks
`issued_at` (the cache backdates by its grace slack), or at least 1 when
the payload carries a nonnegative integral `issued_at` below which `t`
stays within `issued_at + expires_in` seconds. -/
theorem c3_single_fetch
    (fname : String) (f : List PyVal → StrDict → Except PyErr StrDict)
    (args : List PyVal) (kwargs : StrDict) (t₀ t : ℚ) (cs₀ : Caches)
    (td : StrDict) (E : ℕ)
    (hkey : isHashable (cacheKey args kwargs) = true)
    (hmiss : cacheFind ((alGet cs₀ fname).getD []) (cacheKey args kwargs) = none)
    (hf : f args kwargs = .ok td)
    (hexp : alGet td "expires_in" = some (.num (E : ℚ)))
    (ht₀ : (5000 : ℚ) ≤ t₀) (htt : t₀ ≤ t)
    (hwin : pyInt t ≤ pyInt t₀ + E)
    (hcase : (alGet td "issued_at" = none ∧ 6 ≤ E) ∨
      (∃ T : ℕ, alGet td "issued_at" = some (.num (T : ℚ)) ∧ 1 ≤ E ∧
        pyInt t ≤ (T : ℤ) + E)) :
    (cache_tokens_wrapper fname f args kwargs t₀ cs₀).fetches +
      (cache_tokens_wrapper fname f args kwargs t
        (cache_tokens_wrapper fname f args kwargs t₀ cs₀).caches).fetches = 1 ∧
    (cache_tokens_wrapper fname f args kwargs t
        (cache_tokens_wrapper fname f args kwargs t₀ cs₀).caches).ret =
      (cache_tokens_wrapper fname f args kwargs t₀ cs₀).ret := by
  obtain ⟨h₁, h₂, h₃, _⟩ := wrapper_pair_spec fname f args kwargs kwargs t₀ t cs₀ td E
    rfl hkey hmiss hf hexp ht₀ htt hwin hcase
  exact ⟨by rw [h₁, h₂], h₃⟩

/-- Witness for C3's amended claim: a 600-second client-credentials
token fetched once and requested again at the same instant. -/
theorem c3_single_fetch_witness :
    (cache_tokens_wrapper "get_access_token"
        (fun _ _ => .ok [("access_token", PyVal.str "tok"),
          ("expires_in", PyVal.num ((600 : ℕ) : ℚ))]) [] [] 1700000000 []).fetches +
      (cache_tokens_wrapper "get_access_token"
        (fun _ _ => .ok [("access_token", PyVal.str "tok"),
          ("expires_in", PyVal.num ((600 : ℕ) : ℚ))]) [] [] 1700000000
        (cache_tokens_wrapper "get_access_token"
          (fun _ _ => .ok [("access_token", PyVal.str "tok"),
            ("expires_in", PyVal.num ((600 : ℕ) : ℚ))]) [] [] 1700000000 []).caches).fetches
      = 1 ∧
    (cache_tokens_wrapper "get_access_token"
        (fun _ _ => .ok [("access_token", PyVal.str "tok"),
          ("expires_in", PyVal.num ((600 : ℕ) : ℚ))]) [] [] 1700000000
        (cache_tokens_wrapper "get_access_token"
          (fun _ _ => .ok [("access_token", PyVal.str "tok"),
            ("expires_in", PyVal.num ((600 : ℕ) : ℚ))]) [] [] 1700000000 []).caches).ret =
      (cache_tokens_wrapper "get_access_token"
        (fun _ _ => .ok [("access_token", PyVal.str "tok"),
          ("expires_in", PyVal.num ((600 : ℕ) : ℚ))]) [] [] 1700000000 []).ret :=
  c3_single_fetch "get_access_token" _ [] [] 1700000000 1700000000 [] _ 600
    rfl rfl rfl rfl (by decide) (by decide) (by decide) (Or.inl ⟨rfl, by decide⟩)

/-- C3 counterexample: with a payload lacking `issued_at` and
`expires_in = 5`, two wrapper calls with identical arguments at the same
instant — the second therefore inside the token's 5-second validity
window — fetch twice: `insert` backdates `issued_at` by 5000 and `get`
adds its 5-second grace, so the just-stored entry is already treated as
expired.  The claim as stated promises exactly one fetch for all
`(f, args, kwargs)`. -/
theorem c3_counterexample :
    (cache_tokens_wrapper "get_access_token"
        (fun _ _ => .ok [("access_token", PyVal.str "tok"), ("expires_in", PyVal.num 5)])
        [] [] 6000 []).fetches +
      (cache_tokens_wrapper "get_access_token"
        (fun _ _ => .ok [("access_token", PyVal.str "tok"), ("expires_in", PyVal.num 5)])
        [] [] 6000
        (cache_tokens_wrapper "get_access_token"
          (fun _ _ => .ok [("access_token", PyVal.str "tok"), ("expires_in", PyVal.num 5)])
          [] [] 6000 []).caches).fetches = 2 ∧
    (6000 : ℚ) ≤ 6000 + 5 := by
  have h5 : ((6000 : ℚ) - 5000) = 1000 := by norm_num
  have hget₁ : tokenCache_get 6000 (cacheKey [] [])
      ((alGet (ensureCache ([] : Caches) "get_access_token") "get_access_token").getD []) =
      .ok (none, ([] : Cache)) := rfl
  have hr₁ := @wrapper_miss_fetch_ok "get_access_token"
    (fun _ _ => .ok [("access_token", PyVal.str "tok"), ("expires_in", PyVal.num 5)])
    [] [] 6000 [] _ _ hget₁ rfl
  have hget₂ : tokenCache_get 6000 (cacheKey [] [])
      ((alGet (ensureCache
        (alSet (ensureCache ([] : Caches) "get_access_token") "get_access_token"
          (tokenCache_insert 6000 (cacheKey [] [])
            [("access_token", PyVal.str "tok"), ("expires_in", PyVal.num 5)] []).2)
        "get_access_token") "get_access_token").getD []) =
      .ok (none, cacheErase
        (tokenCache_insert 6000 (cacheKey [] [])
          [("access_token", PyVal.str "tok"), ("expires_in", PyVal.num 5)] []).2
        (cacheKey [] [])) := by
    refine tokenCache_get_expired rfl rfl rfl rfl ?_
    rw [h5]
    decide
  have hr₂ := @wrapper_miss_fetch_ok "get_access_token"
    (fun _ _ => .ok [("access_token", PyVal.str "tok"), ("expires_in", PyVal.num 5)])
    [] [] 6000 _ _ _ hget₂ rfl
  refine ⟨?_, by norm_num⟩
  rw [hr₁]
  show (1 : Nat) + (cache_tokens_wrapper _ _ _ _ _ _).fetches = 2
  rw [hr₂]
  rfl

/-- C6 counterexample: a fetched 5-second token is stored; a second call
at the same instant finds the (code-)expired entry, evicts it during the
lookup, and then the fetch raises — so after the failed call the cache
has lost an entry it held before, refuting "the cache's contents are
exactly what they were before the call". -/
theorem c6_counterexample :
    (∃ td, cacheFind ((alGet
        (cache_tokens_wrapper "get_access_token"
          (fun _ _ => .ok [("access_token", PyVal.str "tok"), ("expires_in", PyVal.num 5)])
          [] [] 6000 []).caches "get_access_token").getD []) (cacheKey [] []) = some td) ∧
    (cache_tokens_wrapper "get_access_token" (fun _ _ => .error (.userErr 7)) [] [] 6000
      (cache_tokens_wrapper "get_access_token"
        (fun _ _ => .ok [("access_token", PyVal.str "tok"), ("expires_in", PyVal.num 5)])
        [] [] 6000 []).caches).ret = .error (.userErr 7) ∧
    cacheFind ((alGet
      (cache_tokens_wrapper "get_access_token" (fun _ _ => .error (.userErr 7)) [] [] 6000
        (cache_tokens_wrapper "get_access_token"
          (fun _ _ => .ok [("access_token", PyVal.str "tok"), ("expires_in", PyVal.num 5)])
          [] [] 6000 []).caches).caches "get_access_token").getD [])
      (cacheKey [] []) = none := by
  have h5 : ((6000 : ℚ) - 5000) = 1000 := by norm_num
  have hget₁ : tokenCache_get 6000 (cacheKey [] [])
      ((alGet (ensureCache ([] : Caches) "get_access_token") "get_access_token").getD []) =
      .ok (none, ([] : Cache)) := rfl
  have hr₁ := @wrapper_miss_fetch_ok "get_access_token"
    (fun _ _ => .ok [("access_token", PyVal.str "tok"), ("expires_in", PyVal.num 5)])
    [] [] 6000 [] _ _ hget₁ rfl
  have hget₂ : tokenCache_get 6000 (cacheKey [] [])
      ((alGet (ensureCache
        (alSet (ensureCache ([] : Caches) "get_access_token") "get_access_token"
          (tokenCache_insert 6000 (cacheKey [] [])
            [("access_token", PyVal.str "tok"), ("expires_in", PyVal.num 5)] []).2)
        "get_access_token") "get_access_token").getD []) =
      .ok (none, cacheErase
        (tokenCache_insert 6000 (cacheKey [] [])
          [("access_token", PyVal.str "tok"), ("expires_in", PyVal.num 5)] []).2
        (cacheKey [] [])) := by
    refine tokenCache_get_expired rfl rfl rfl rfl ?_
    rw [h5]
    decide
  have hr₂ := @wrapper_miss_fetch_error "get_access_token"
    (fun _ _ => .error (.userErr 7)) [] [] 6000 _ _ _ hget₂ rfl
  refine ⟨?_, ?_, ?_⟩
  · rw [hr₁]
    exact ⟨_, rfl⟩
  · rw [hr₁]
    show (cache_tokens_wrapper _ _ _ _ _ _).ret = _
    rw [hr₂]
  · rw [hr₁]
    show cacheFind ((alGet (cache_tokens_wrapper _ _ _ _ _ _).caches _).getD [])
      (cacheKey [] []) = none
    rw [hr₂]
    rfl

/-- C5 (amended): keyword arguments that are equal as mappings — same
keys bound to recursively-equal values, in any order, including nested
dicts — hash to the same cache key; consequently a second call with the
reordered keyword arguments, made inside the first token's validity
window under the same slack conditions as cache determinism, is a cache
hit of the first call. -/
theorem c5_kwarg_order
    (fname : String) (f : List PyVal → StrDict → Except PyErr StrDict)
    (args : List PyVal) (kwargs kwargs₂ : StrDict) (t₀ t : ℚ) (cs₀ : Caches)
    (td : StrDict) (E : ℕ)
    (hsv : SameVal (.pdict kwargs₂) (.pdict kwargs))
    (hnd : nodupKeysV (.pdict kwargs₂) = true)
    (hkey : isHashable (cacheKey args kwargs) = true)
    (hmiss : cacheFind ((alGet cs₀ fname).getD []) (cacheKey args kwargs) = none)
    (hf : f args kwargs = .ok td)
    (hexp : alGet td "expires_in" = some (.num (E : ℚ)))
    (ht₀ : (5000 : ℚ) ≤ t₀) (htt : t₀ ≤ t)
    (hwin : pyInt t ≤ pyInt t₀ + E)
    (hcase : (alGet td "issued_at" = none ∧ 6 ≤ E) ∨
      (∃ T : ℕ, alGet td "issued_at" = some (.num (T : ℚ)) ∧ 1 ≤ E ∧
        pyInt t ≤ (T : ℤ) + E)) :
    cacheKey args kwargs₂ = cacheKey args kwargs ∧
    (cache_tokens_wrapper fname f args kwargs t₀ cs₀).fetches +
      (cache_tokens_wrapper fname f args kwargs₂ t
        (cache_tokens_wrapper fname f args kwargs t₀ cs₀).caches).fetches = 1 ∧
    (cache_tokens_wrapper fname f args kwargs₂ t
        (cache_tokens_wrapper fname f args kwargs t₀ cs₀).caches).ret =
      (cache_tokens_wrapper fname f args kwargs t₀ cs₀).ret := by
  have hrm := sameVal_rmh hsv hnd
  have hcanon : kwargsCanon kwargs₂ = kwargsCanon kwargs := by
    simp only [recursive_make_hashable, PyVal.tuple.injEq] at hrm
    exact hrm
  have hkeq : cacheKey args kwargs₂ = cacheKey args kwargs := by
    simp only [cacheKey, hcanon]
  obtain ⟨h₁, h₂, h₃, _⟩ := wrapper_pair_spec fname f args kwargs kwargs₂ t₀ t cs₀ td E
    hkeq hkey hmiss hf hexp ht₀ htt hwin hcase
  exact ⟨hkeq, by rw [h₁, h₂], h₃⟩

/-- Witness for C5's amended claim: `{a: 1, b: 2}` fetched once, then a
call with `{b: 2, a: 1}` hits the cache. -/
theorem c5_kwarg_order_witness :
    cacheKey [] [("b", PyVal.num 2), ("a", PyVal.num 1)] =
        cacheKey [] [("a", PyVal.num 1), ("b", PyVal.num 2)] ∧
    (cache_tokens_wrapper "get_access_token"
        (fun _ _ => .ok [("access_token", PyVal.str "tok"),
          ("expires_in", PyVal.num ((600 : ℕ) : ℚ))])
        [] [("a", PyVal.num 1), ("b", PyVal.num 2)] 1700000000 []).fetches +
      (cache_tokens_wrapper "get_access_token"
        (fun _ _ => .ok [("access_token", PyVal.str "tok"),
          ("expires_in", PyVal.num ((600 : ℕ) : ℚ))])
        [] [("b", PyVal.num 2), ("a", PyVal.num 1)] 1700000000
        (cache_tokens_wrapper "get_access_token"
          (fun _ _ => .ok [("access_token", PyVal.str "tok"),
            ("expires_in", PyVal.num ((600 : ℕ) : ℚ))])
          [] [("a", PyVal.num 1), ("b", PyVal.num 2)] 1700000000 []).caches).fetches = 1 ∧
    (cache_tokens_wrapper "get_access_token"
        (fun _ _ => .ok [("access_token", PyVal.str "tok"),
          ("expires_in", PyVal.num ((600 : ℕ) : ℚ))])
        [] [("b", PyVal.num 2), ("a", PyVal.num 1)] 1700000000
        (cache_tokens_wrapper "get_access_token"
          (fun _ _ => .ok [("access_token", PyVal.str "tok"),
            ("expires_in", PyVal.num ((600 : ℕ) : ℚ))])
          [] [("a", PyVal.num 1), ("b", PyVal.num 2)] 1700000000 []).caches).ret =
      (cache_tokens_wrapper "get_access_token"
        (fun _ _ => .ok [("access_token", PyVal.str "tok"),
          ("expires_in", PyVal.num ((600 : ℕ) : ℚ))])
        [] [("a", PyVal.num 1), ("b", PyVal.num 2)] 1700000000 []).ret :=
  c5_kwarg_order "get_access_token" _ []
    [("a", PyVal.num 1), ("b", PyVal.num 2)] [("b", PyVal.num 2), ("a", PyVal.num 1)]
    1700000000 1700000000 [] _ 600
    (SameVal.pdict
      (SamePairs.cons (SameVal.num 2) (SamePairs.cons (SameVal.num 1) SamePairs.nil))
      (List.Perm.swap ("a", PyVal.num 1) ("b", PyVal.num 2) []))
    (by decide) rfl rfl rfl rfl (by decide) (by decide) (by decide)
    (Or.inl ⟨rfl, by decide⟩)

/-- C5 counterexample to the claim as stated: with a 5-second
client-credentials payload, reordered keyword arguments produce the same
cache key, yet the second call at the same instant is not a cache hit —
it fetches again, because the stored entry is already treated as
expired. -/
theorem c5_counterexample :
    cacheKey [] [("b", PyVal.num 2), ("a", PyVal.num 1)] =
      cacheKey [] [("a", PyVal.num 1), ("b", PyVal.num 2)] ∧
    (cache_tokens_wrapper "get_access_token"
        (fun _ _ => .ok [("access_token", PyVal.str "tok"), ("expires_in", PyVal.num 5)])
        [] [("b", PyVal.num 2), ("a", PyVal.num 1)] 6000
        (cache_tokens_wrapper "get_access_token"
          (fun _ _ => .ok [("access_token", PyVal.str "tok"), ("expires_in", PyVal.num 5)])
          [] [("a", PyVal.num 1), ("b", PyVal.num 2)] 6000 []).caches).fetches = 1 := by
  have h5 : ((6000 : ℚ) - 5000) = 1000 := by norm_num
  have hget₁ : tokenCache_get 6000 (cacheKey [] [("a", PyVal.num 1), ("b", PyVal.num 2)])
      ((alGet (ensureCache ([] : Caches) "get_access_token") "get_access_token").getD []) =
      .ok (none, ([] : Cache)) := rfl
  have hr₁ := @wrapper_miss_fetch_ok "get_access_token"
    (fun _ _ => .ok [("access_token", PyVal.str "tok"), ("expires_in", PyVal.num 5)])
    [] [("a", PyVal.num 1), ("b", PyVal.num 2)] 6000 [] _ _ hget₁ rfl
  have hget₂ : tokenCache_get 6000 (cacheKey [] [("b", PyVal.num 2), ("a", PyVal.num 1)])
      ((alGet (ensureCache
        (alSet (ensureCache ([] : Caches) "get_access_token") "get_access_token"
          (tokenCache_insert 6000 (cacheKey [] [("a", PyVal.num 1), ("b", PyVal.num 2)])
            [("access_token", PyVal.str "tok"), ("expires_in", PyVal.num 5)] []).2)
        "get_access_token") "get_access_token").getD []) =
      .ok (none, cacheErase
        (tokenCache_insert 6000 (cacheKey [] [("a", PyVal.num 1), ("b", PyVal.num 2)])
          [("access_token", PyVal.str "tok"), ("expires_in", PyVal.num 5)] []).2
        (cacheKey [] [("b", PyVal.num 2), ("a", PyVal.num 1)])) := by
    refine tokenCache_get_expired rfl rfl rfl rfl ?_
    rw [h5]
    decide
  have hr₂ := @wrapper_miss_fetch_ok "get_access_token"
    (fun _ _ => .ok [("access_token", PyVal.str "tok"), ("expires_in", PyVal.num 5)])
    [] [("b", PyVal.num 2), ("a", PyVal.num 1)] 6000 _ _ _ hget₂ rfl
  refine ⟨rfl, ?_⟩
  rw [hr₁]
  show (cache_tokens_wrapper _ _ _ _ _ _).fetches = 1
  rw [hr₂]
